import Mathlib

/-!
Verification development for the aliesce directive parser and
output-synthesis engine (src/main.rs).

The Rust source is shallowly embedded: strings are modelled as Lean
`String` over their character lists (all inputs considered are ASCII, so
Rust's byte indices coincide with the character indices used here),
`HashMap` is modelled as an association list whose lookup returns the most
recent insertion, panics are modelled by `Except.error`, and filesystem /
process side effects are modelled as an explicit effect trace.
-/

set_option maxRecDepth 4096

deriving instance DecidableEq for Except

/-! ## String utilities mirroring the Rust primitives used by the source -/

/-- Fuel-driven worker for `splitOnL`; the fuel is always instantiated with
the length of the list, which bounds the recursion depth. -/
def splitOnFuel (pat : List Char) : Nat → List Char → List (List Char)
  | _, [] => [[]]
  | 0, l => [l]
  | fuel + 1, x :: xs =>
    if pat.isEmpty = false ∧ pat.isPrefixOf (x :: xs) then
      [] :: splitOnFuel pat fuel (List.drop (pat.length - 1) xs)
    else
      match splitOnFuel pat fuel xs with
      | [] => [[x]]
      | h :: t => (x :: h) :: t

/-- `str::split` on a pattern, over character lists.  Matches Rust semantics
for a nonempty pattern: `"a##b".split("##") = ["a","b"]`, `"".split(p) = [""]`,
separators at the ends produce empty entries. -/
def splitOnL (pat l : List Char) : List (List Char) :=
  splitOnFuel pat l.length l

/-- `s.split(pat)` as a list of strings. -/
def strSplitOn (s pat : String) : List String :=
  (splitOnL pat.data s.data).map String.mk

/-- `s.find(pat)`: index of the first occurrence of `pat` in `s`. -/
def strFind (s pat : String) : Option Nat :=
  (List.range (s.data.length + 1)).find? (fun i => pat.data.isPrefixOf (s.data.drop i))

/-- `s.contains(pat)`: substring containment. -/
def strContains (s pat : String) : Bool :=
  (List.range (s.data.length + 1)).any (fun i => pat.data.isPrefixOf (s.data.drop i))

/-- The first `n` characters of `s` (`&s[..n]` on ASCII input). -/
def strTake (s : String) (n : Nat) : String := String.mk (s.data.take n)

/-- All but the first `n` characters of `s` (`&s[n..]` on ASCII input). -/
def strDrop (s : String) (n : Nat) : String := String.mk (s.data.drop n)

/-- `n` characters of `s` starting at index `i`
(`s.chars().skip(i).take(n)`). -/
def strSlice (s : String) (i n : Nat) : String := String.mk ((s.data.drop i).take n)

/-- `str::trim`: drop leading and trailing whitespace. -/
def rustTrim (s : String) : String :=
  String.mk (((s.data.dropWhile Char.isWhitespace).reverse.dropWhile Char.isWhitespace).reverse)

/-- `str::lines`: split on `'\n'`, dropping a final empty piece produced by a
trailing newline and any `'\r'` left at the end of a line. -/
def rustLines (s : String) : List String :=
  if s.data.isEmpty then []
  else
    let parts := strSplitOn s "\n"
    let parts := if s.data.getLastD ' ' = '\n' then parts.dropLast else parts
    parts.map (fun l =>
      if l.data.getLastD ' ' = '\r' then strTake l (l.data.length - 1) else l)

/-- Fuel-driven worker for `rustReplace`; the fuel is always instantiated
with the length of the list. -/
def replaceFuel (pat rep : List Char) : Nat → List Char → List Char
  | _, [] => []
  | 0, l => l
  | fuel + 1, x :: xs =>
    if pat.isEmpty = false ∧ pat.isPrefixOf (x :: xs) then
      rep ++ replaceFuel pat rep fuel (List.drop (pat.length - 1) xs)
    else
      x :: replaceFuel pat rep fuel xs

/-- `str::replace`: replace every non-overlapping occurrence of `pat`,
left to right (the source never calls it with an empty pattern). -/
def rustReplace (s pat rep : String) : String :=
  String.mk (replaceFuel pat.data rep.data s.data.length s.data)

/-- `usize as i8`: two's-complement truncation of a byte index. -/
def i8wrap (n : Nat) : Int := (((n + 128) % 256 : Nat) : Int) - 128

/-- `i8 as usize`: two's-complement widening of an `i8` value. -/
def usizeWrap (z : Int) : Nat := (z % (2 ^ 64 : Int)).toNat

/-- `usize` subtraction as compiled in release mode (wrapping).  The source
only reaches this subtraction with a minuend at least as large as the
subtrahend on the inputs considered in this development. -/
def usizeSub (a b : Nat) : Nat := (a + 2 ^ 64 - b) % 2 ^ 64

/-- Digits of a decimal numeral folded to a `Nat`. -/
def natFromDigits (l : List Char) : Nat :=
  l.foldl (fun a c => a * 10 + (c.toNat - '0'.toNat)) 0

/-- `str::parse::<i8>()`: optional sign, one or more ASCII digits, value in
`[-128, 127]`; anything else is an error (`none`). -/
def parseI8 (s : String) : Option Int :=
  let (sign, digits) : Int × List Char :=
    match s.data with
    | '+' :: r => (1, r)
    | '-' :: r => (-1, r)
    | r => (1, r)
  if digits.isEmpty ∨ ¬ digits.all Char.isDigit then none
  else
    let v : Int := sign * (natFromDigits digits : Int)
    if -128 ≤ v ∧ v ≤ 127 then some v else none

/-! ## Static configuration (the `DEFAULTS` table of the source) -/

def pathSrcDefault : String := "src.txt"
def pathDirDefault : String := "scripts"
def tagHead : String := "###"
def tagTail : String := "#"
def sigStop : String := "!"
def plcPathDir : String := ">"
def plcPathAll : String := ">\x7b\x7d<"
def cmdProg : String := "bash"
def cmdFlag : String := "-c"

/-- `plc_path_all.split("{}")` head segment. -/
def plcHead : String := (strSplitOn plcPathAll "\x7b\x7d").getD 0 ""

/-- `plc_path_all.split("{}")` tail segment. -/
def plcTail : String := (strSplitOn plcPathAll "\x7b\x7d").getD 1 ""

/-- `[plc_head, plc_tail].join("")`. -/
def plcFull : String := plcHead ++ plcTail

/-- The runtime configuration as seen by the engine: the `path_src` and
`dest` receipts (each overriding a default when present), the `list` flag
and the `only` subset.  The remaining defaults are never overridden. -/
structure Config where
  pathSrc : Option String
  dest : Option String
  list : Bool
  only : Option (List Nat)
deriving DecidableEq, Repr

/-- `config.get("path_src", "path_src")`. -/
def Config.pathSrcGet (c : Config) : String := c.pathSrc.getD pathSrcDefault

/-- `config.get("dest", "path_dir")`. -/
def Config.pathDirGet (c : Config) : String := c.dest.getD pathDirDefault

def defaultConfig : Config := ⟨none, none, false, none⟩

/-! ## Data structures (`Source`, `Script`, `Output` and components) -/

structure Script where
  n : Nat
  line : String
  body : String
deriving DecidableEq, Repr

structure Source where
  preface : String
  scripts : List Script
deriving DecidableEq, Repr

inductive OutputText where
  | Stdout (s : String)
  | Stderr (s : String)
deriving DecidableEq, Repr

structure OutputFilePath where
  dir : String
  stem : String
  ext : String
deriving DecidableEq, Repr

/-- `OutputFilePath::get`: `format!("{}/{}.{}", dir, stem, ext)`. -/
def OutputFilePath.get (p : OutputFilePath) : String :=
  p.dir ++ "/" ++ p.stem ++ "." ++ p.ext

structure OutputFileInitCode where
  prog : String
  args : List String
  plcs : List (Int × String)
deriving DecidableEq, Repr

inductive OutputFileInit where
  | Text (t : OutputText)
  | Code (c : OutputFileInitCode)
deriving DecidableEq, Repr

structure OutputFile where
  data : List String
  code : String
  path : OutputFilePath
  init : OutputFileInit
  n : Nat
deriving DecidableEq, Repr

inductive Output where
  | Text (t : OutputText)
  | File (f : OutputFile)
deriving DecidableEq, Repr

/-! ## Path resolution (`OutputFile::new`, path-parts section) -/

/-- The `/`-segments of the path token after the directory-placeholder
substitution on the first segment
(`if plc_path_dir == parts_path[0] { parts_path[0] = path_dir }`). -/
def partsSub (token : String) (cfg : Config) : List String :=
  match strSplitOn token "/" with
  | p :: rest => (if p = plcPathDir then cfg.pathDirGet else p) :: rest
  | [] => []

/-- The filename part: the last `/`-segment
(`parts_path.split_off(parts_path.len() - 1).last()`). -/
def filePart (token : String) (cfg : Config) : String :=
  (partsSub token cfg).getLastD ""

/-- The filename part broken on `'.'`. -/
def fileSegs (token : String) (cfg : Config) : List String :=
  strSplitOn (filePart token cfg) "."

/-- The dir/stem/ext triple computed by `OutputFile::new` from the first
data item. -/
def pathResolve (token : String) (cfg : Config) : OutputFilePath :=
  let partsPath := (partsSub token cfg).dropLast
  let partsFilename := fileSegs token cfg
  let pFLen := partsFilename.length
  { dir := if partsPath.isEmpty then cfg.pathDirGet else String.intercalate "/" partsPath,
    stem :=
      if pFLen > 1 then String.intercalate "." (partsFilename.take (pFLen - 1))
      else (strSplitOn cfg.pathSrcGet ".").getD 0 "",
    ext := partsFilename.getLastD "" }

example : pathResolve "ext" defaultConfig = ⟨"scripts", "src", "ext"⟩ := by decide
example : pathResolve ">/script.ext" defaultConfig = ⟨"scripts", "script", "ext"⟩ := by decide
example : pathResolve "script.suffix1.suffix2.ext" defaultConfig =
    ⟨"scripts", "script.suffix1.suffix2", "ext"⟩ := by decide
example : pathResolve "dir/script.ext" defaultConfig = ⟨"dir", "script", "ext"⟩ := by decide

/-! ## Command synthesis (`OutputFile::new`, run-spec section) -/

/-- The marker index of the scan:
`if let Some(i) = item.find(pat) { i as i8 } else { -1 }`. -/
def scanIdx (item pat : String) : Int :=
  match strFind item pat with
  | some i => i8wrap i
  | none => -1

/-- The bracketed slice `s` of the scan:
`item.chars().skip(head_i as usize).take((tail_i - head_i + 1) as usize)`. -/
def scanSlice (item : String) : String :=
  strSlice item (usizeWrap (scanIdx item plcHead))
    (usizeWrap (scanIdx item plcTail - scanIdx item plcHead + 1))

/-- The text between the markers:
`s.chars().skip(plc_head.len()).take(s.len() - plc_full.len())`. -/
def scanInterior (item : String) : String :=
  strSlice (scanSlice item) plcHead.data.length
    (usizeSub (scanSlice item).data.length plcFull.data.length)

/-- One step of the placeholder scan over a post-path token.  Mirrors the
closure in `OutputFile::new`: a token containing the adjacent head-tail
pair refers to the current script (`(0, plc_full)`); otherwise the byte
indices of head and tail are cast to `i8` (`-1` doubling as "not found"),
and when the head index is smaller the text between them is parsed as an
`i8` with `unwrap` — a parse failure panics (`Except.error`).  Tokens with
no request yield the sentinel `(-1, "")`, filtered out by the caller. -/
def scanItem (item : String) : Except String (Int × String) :=
  if strContains item plcFull then .ok (0, plcFull)
  else if scanIdx item plcHead ≠ -1 ∧ scanIdx item plcTail ≠ -1 ∧
      scanIdx item plcHead < scanIdx item plcTail then
    match parseI8 (scanInterior item) with
    | some v => .ok (v, scanSlice item)
    | none => .error ("panic: parse script no. in placeholder of '" ++ item ++ "'")
  else .ok (-1, "")

/-- The collected placeholder list: scan each post-path token in order
(the first panic aborts), keeping the pairs whose number is not the
`-1` sentinel. -/
def plcsGet : List String → Except String (List (Int × String))
  | [] => .ok []
  | item :: rest =>
    match scanItem item with
    | .error e => .error e
    | .ok p =>
      match plcsGet rest with
      | .error e => .error e
      | .ok ps => .ok (if p.1 ≠ -1 then p :: ps else ps)

/-- `OutputFile::new`: resolve the output path from the first data item,
then the run spec from the rest — precluded-run notices first, then the
placeholder scan deciding composite versus direct invocation.  The caller
guarantees `data` is nonempty. -/
def OutputFile.new (data : List String) (code : String) (n : Nat) (config : Config) :
    Except String OutputFile :=
  let path := pathResolve (data.getD 0 "") config
  if data.length = 1 then
    .ok ⟨data, code, path,
         .Text (.Stderr ("Not running file no. " ++ toString n ++ " (no values)")), n⟩
  else if data.getD 1 "" = sigStop then
    .ok ⟨data, code, path,
         .Text (.Stderr ("Not running file no. " ++ toString n ++ " (" ++ sigStop ++ " applied)")), n⟩
  else
    match plcsGet (data.drop 1) with
    | .error e => .error e
    | .ok plcs =>
      let hasPlaceholder := plcs.isEmpty = false
      let prog := if hasPlaceholder then cmdProg else data.getD 1 ""
      let args :=
        if hasPlaceholder then [cmdFlag, String.intercalate " " (data.drop 1)]
        else (data.drop 2) ++ [path.get]
      .ok ⟨data, code, path, .Code ⟨prog, args, plcs⟩, n⟩

/-! ## Tokenizer and fragment engine (`inputs_parse`) -/

/-- The label/data split of a tag line: everything up to and including the
first tail marker, and everything after it (`line.split_at(i + 1)`); the
whole line is data when the marker is absent. -/
def lineSections (line : String) : String × String :=
  match strFind line tagTail with
  | some i => (strTake line (i + 1), strDrop line (i + 1))
  | none => ("", line)

/-- The label: the part of the head section before the tail marker,
kept untrimmed (`line_sections.0.split(tag_tail).nth(0)`). -/
def lineLabel (line : String) : String :=
  (strSplitOn (lineSections line).1 tagTail).getD 0 ""

/-- The tag-line data: the tail section, trimmed. -/
def lineData (line : String) : String :=
  rustTrim (lineSections line).2

/-- The token list: the data split on the space character with empty
entries removed (`line_data.split(' ').filter(|item| !item.is_empty())`). -/
def lineTokens (line : String) : List String :=
  (strSplitOn (lineData line) " ").filter (fun item => item.data.isEmpty = false)

/-- The list-mode line printed for a script: `"{n}:{join} {line_data}"`
where `join` is the label followed by `':'` when the label is nonempty. -/
def listLine (script : Script) : String :=
  let label := lineLabel script.line
  let join := if label.data.isEmpty then "" else label ++ ":"
  toString script.n ++ ":" ++ join ++ " " ++ lineData script.line

/-- `inputs_parse`: list mode short-circuits to an informational stdout
line; absent data and the stop signal short-circuit to informational
stderr lines; otherwise the script becomes an `OutputFile`. -/
def inputsParse (script : Script) (config : Config) : Except String Output :=
  if config.list then .ok (.Text (.Stdout (listLine script)))
  else
    let data := lineTokens script.line
    if data.isEmpty then
      .ok (.Text (.Stderr ("No tag data found for script no. " ++ toString script.n)))
    else if data.getD 0 "" = sigStop then
      .ok (.Text (.Stderr ("Bypassing script no. " ++ toString script.n ++
            " (" ++ sigStop ++ " applied)")))
    else
      match OutputFile.new data script.body script.n config with
      | .ok f => .ok (.File f)
      | .error e => .error e

/-! ## Source splitting (`source_get`, `Script::new`) -/

/-- The configured message 'file', matched line-by-line during source
reading so that the init-template text is not split at its tag head. -/
def docLineFile : String :=
  "The default source path is 'src.txt'. Each script in the file is preceded by a tag line begun with the tag head ('###') and an optional label and tail ('#'):"

/-- The configured message 'line', likewise protected during splitting. -/
def docLineLine : String :=
  "###[ label #] <OUTPUT EXTENSION / PATH: [[[.../]dirname/]stem.]ext> <COMMAND>"

/-- `Script::new`: the first line of a section is the tag line, the rest
joined by newlines is the body.  (`lines().nth(0).unwrap()` panics on an
empty section; no document considered here produces one.) -/
def Script.new (n : Nat) (text : String) : Script :=
  let ls := rustLines text
  ⟨n, ls.getD 0 "", String.intercalate "\n" (ls.drop 1)⟩

/-- Drop the shebang line of the leading section, when present:
`part.splitn(2, '\n').last()`. -/
def shebangDrop (part : String) : String :=
  match strFind part "\n" with
  | some j => strDrop part (j + 1)
  | none => part

/-- `source_get` minus the file I/O: protect the two init-option message
lines, split on the tag head, strip a shebang from the leading section,
then number the remaining sections from 1 as scripts. -/
def sourceGet (text : String) : Source :=
  let replaced := String.intercalate "\n" ((rustLines text).map (fun l =>
    if l = docLineFile then "plc_doc_line_file"
    else if l = docLineLine then "plc_doc_line_line" else l))
  let sections := (strSplitOn replaced tagHead).enum
  let sections := sections.map (fun p =>
    if p.1 = 0 ∧ 2 ≤ p.2.data.length ∧ strTake p.2 2 = "#!" then (p.1, shebangDrop p.2) else p)
  let preface := rustReplace (rustReplace (sections.getD 0 (0, "")).2
    "plc_doc_line_file" docLineFile) "plc_doc_line_line" docLineLine
  let scripts := (sections.drop 1).map (fun p => Script.new p.1 p.2)
  ⟨preface, scripts⟩

/-! ## Outputs, context and execution -/

/-- `outputs_get`: filter the scripts by the `only` subset when present,
then parse each. -/
def outputsGet (source : Source) (config : Config) : Except String (List Output) :=
  (source.scripts.filter (fun s =>
    match config.only with
    | none => true
    | some ns => ns.contains s.n)).mapM (fun s => inputsParse s config)

/-- `context_get`: fold the outputs into a number-to-path map.  The map is
an association list whose `lookup` returns the most recent insertion,
matching `HashMap::insert`/`get`. -/
def contextGet (outputs : List Output) : List (Nat × String) :=
  outputs.foldl (fun acc o =>
    match o with
    | .File f => (f.n, f.path.get) :: acc
    | _ => acc) []

/-- `HashMap::get` on the modelled context. -/
def ctxLookup (ctx : List (Nat × String)) (k : Nat) : Option String :=
  ctx.lookup k

/-- The context key a placeholder resolves to: the script's own number for
`0`, otherwise `plc.0 as usize`. -/
def plcTarget (n : Nat) (plc : Int × String) : Nat :=
  if plc.1 = 0 then n else usizeWrap plc.1

/-- The substitution loop of `OutputFile::exec`: replace each recorded
placeholder text with the looked-up save path; a missing context entry is
the `unwrap` panic. -/
def plcsSubst (context : List (Nat × String)) (n : Nat) (cmd : String) :
    List (Int × String) → Except String String
  | [] => .ok cmd
  | plc :: rest =>
    match ctxLookup context (plcTarget n plc) with
    | some path => plcsSubst context n (rustReplace cmd plc.2 path) rest
    | none => .error ("panic: get save path for script no. " ++ toString (plcTarget n plc))

/-- An abstract step of the execution sink. -/
inductive Effect where
  | print (toErr : Bool) (s : String)
  | mkdirAll (dir : String)
  | writeFile (path content : String)
  | spawnProc (prog : String) (args : List String)
deriving DecidableEq, Repr

/-- `OutputFile::save`: create the directory, then write the body. -/
def OutputFile.save (f : OutputFile) : List Effect :=
  [.mkdirAll f.path.dir, .writeFile f.path.get f.code]

/-- The `Code` arm of `OutputFile::exec`: spawn the program directly when
no placeholder was recorded, else substitute (the initial `cmd` — empty
for no placeholders, else the template argument — is inlined) and spawn
with the flag and the substituted template. -/
def execCode (c : OutputFileInitCode) (n : Nat) (context : List (Nat × String)) :
    Except String (List Effect) :=
  if c.plcs.isEmpty then .ok [.spawnProc c.prog c.args]
  else
    match plcsSubst context n
        (if c.plcs.length = 0 then "" else c.args.getD 1 "") c.plcs with
    | .ok cmd => .ok [.spawnProc c.prog [c.args.getD 0 "", cmd]]
    | .error e => .error e

/-- `OutputFile::exec`: print a precluded-run notice, or run the code arm. -/
def OutputFile.exec (f : OutputFile) (context : List (Nat × String)) :
    Except String (List Effect) :=
  match f.init with
  | .Text (.Stdout s) => .ok [.print false s]
  | .Text (.Stderr s) => .ok [.print true s]
  | .Code c => execCode c f.n context

/-- `Output::apply`: print informational text, or save then execute a
file output. -/
def Output.apply (o : Output) (context : List (Nat × String)) :
    Except String (List Effect) :=
  match o with
  | .Text (.Stdout s) => .ok [.print false s]
  | .Text (.Stderr s) => .ok [.print true s]
  | .File f =>
    match f.exec context with
    | .ok ex => .ok (f.save ++ ex)
    | .error e => .error e

/-- The processing tail of `main`: the context is computed from the full
output list before any output is applied, and every output is applied
against that same completed context. -/
def outputsApplyAll (outputs : List Output) : List (Except String (List Effect)) :=
  let context := contextGet outputs
  outputs.map (fun o => o.apply context)

example : plcHead = ">" ∧ plcTail = "<" ∧ plcFull = "><" := by decide
example : scanItem "><" = .ok (0, "><") := by decide
example : scanItem ">12<" = .ok (12, ">12<") := by decide
example : scanItem "program_1" = .ok (-1, "") := by decide
example : (scanItem ">abc<").isOk = false := by decide

/-! ## Helper lemmas -/

theorem splitOnFuel_ne_nil (pat : List Char) (fuel : Nat) (l : List Char) :
    splitOnFuel pat fuel l ≠ [] := by
  induction fuel generalizing l with
  | zero => cases l <;> simp [splitOnFuel]
  | succ fuel ih =>
    cases l with
    | nil => simp [splitOnFuel]
    | cons x xs =>
      simp only [splitOnFuel]
      split
      · simp
      · split
        · simp
        · simp

theorem splitOnFuel_singleton (pat : List Char) (fuel : Nat) (l m : List Char)
    (h : splitOnFuel pat fuel l = [m]) : m = l := by
  induction fuel generalizing l m with
  | zero =>
    cases l with
    | nil => simp [splitOnFuel] at h; exact h
    | cons x xs => simp [splitOnFuel] at h; exact h.symm
  | succ fuel ih =>
    cases l with
    | nil => simp [splitOnFuel] at h; exact h
    | cons x xs =>
      simp only [splitOnFuel] at h
      split at h
      · have hne := splitOnFuel_ne_nil pat fuel (List.drop (pat.length - 1) xs)
        rw [List.cons_eq_cons] at h
        exact absurd h.2 hne
      · split at h
        · next heq =>
          exact absurd heq (splitOnFuel_ne_nil pat fuel xs)
        · next hd tl heq =>
          rw [List.cons_eq_cons] at h
          obtain ⟨hm, ht⟩ := h
          rw [ht] at heq
          have hx := ih xs hd heq
          rw [← hm, hx]

theorem strSplitOn_singleton (s pat m : String) (h : strSplitOn s pat = [m]) : m = s := by
  unfold strSplitOn splitOnL at h
  cases hsp : splitOnFuel pat.data s.data.length s.data with
  | nil => exact absurd hsp (splitOnFuel_ne_nil _ _ _)
  | cons hd tl =>
    rw [hsp] at h
    simp at h
    obtain ⟨h1, h2⟩ := h
    rw [h2] at hsp
    have := splitOnFuel_singleton _ _ _ _ hsp
    rw [← h1, this]

theorem i8wrap_of_le (n : Nat) (h : n ≤ 127) : i8wrap n = n := by
  unfold i8wrap
  have h2 : n + 128 < 256 := by omega
  rw [Nat.mod_eq_of_lt h2]
  push_cast
  omega

theorem usizeWrap_ofNat (n : Nat) (h : n < 2 ^ 64) : usizeWrap (n : Int) = n := by
  unfold usizeWrap
  rw [Int.emod_eq_of_lt (by positivity) (by exact_mod_cast h)]
  simp

theorem usizeSub_of_le (a b : Nat) (hba : b ≤ a) (ha : a < 2 ^ 64) : usizeSub a b = a - b := by
  unfold usizeSub
  have he : a + 2 ^ 64 - b = (a - b) + 2 ^ 64 := by omega
  rw [he, Nat.add_mod_right]
  exact Nat.mod_eq_of_lt (by omega)

theorem strFind_spec (s pat : String) (i : Nat) (h : strFind s pat = some i) :
    pat.data.isPrefixOf (s.data.drop i) = true ∧ i ≤ s.data.length := by
  unfold strFind at h
  have h1 := List.find?_some h
  have h2 := List.mem_of_find?_eq_some h
  rw [List.mem_range] at h2
  exact ⟨h1, by omega⟩

theorem strFind_lt_length (s pat : String) (i : Nat) (hpat : pat.data ≠ [])
    (h : strFind s pat = some i) : i < s.data.length := by
  obtain ⟨h1, h2⟩ := strFind_spec s pat i h
  have hpre : pat.data <+: s.data.drop i := List.isPrefixOf_iff_prefix.mp h1
  have hlen := hpre.length_le
  rw [List.length_drop] at hlen
  have : 1 ≤ pat.data.length := by
    cases hd : pat.data with
    | nil => exact absurd hd hpat
    | cons a b => simp
  omega

theorem plcHead_eq : plcHead = ">" := by decide

theorem plcTail_eq : plcTail = "<" := by decide

theorem plcFull_eq : plcFull = "><" := by decide

theorem scanIdx_of_find (item pat : String) (i : Nat)
    (h : strFind item pat = some i) (hle : i ≤ 127) : scanIdx item pat = i := by
  unfold scanIdx
  rw [h]
  exact i8wrap_of_le i hle

/-- In the region where both marker byte indices fit in `i8` (at most 127),
the bracketed slice runs from the head marker to the tail marker
inclusive. -/
theorem scanSlice_inrange (item : String) (hi ti : Nat)
    (hh : strFind item plcHead = some hi)
    (ht : strFind item plcTail = some ti)
    (hlt : hi < ti) (hle : ti ≤ 127) :
    scanSlice item = strSlice item hi (ti - hi + 1) := by
  unfold scanSlice
  rw [scanIdx_of_find _ _ _ hh (by omega), scanIdx_of_find _ _ _ ht hle]
  have w1 : usizeWrap (hi : Int) = hi := usizeWrap_ofNat hi (by norm_num; omega)
  have w2 : usizeWrap ((ti : Int) - hi + 1) = ti - hi + 1 := by
    have hcast : ((ti : Int) - hi + 1) = ((ti - hi + 1 : Nat) : Int) := by push_cast; omega
    rw [hcast]
    exact usizeWrap_ofNat _ (by norm_num; omega)
  rw [w1, w2]

/-- In the in-range region the interior is exactly the text strictly
between the two markers. -/
theorem scanInterior_inrange (item : String) (hi ti : Nat)
    (hh : strFind item plcHead = some hi)
    (ht : strFind item plcTail = some ti)
    (hlt : hi < ti) (hle : ti ≤ 127) :
    scanInterior item = strSlice item (hi + 1) (ti - hi - 1) := by
  have hti_len : ti < item.data.length :=
    strFind_lt_length _ _ _ (by rw [plcTail_eq]; decide) ht
  unfold scanInterior
  rw [scanSlice_inrange item hi ti hh ht hlt hle]
  have hslen : (strSlice item hi (ti - hi + 1)).data.length = ti - hi + 1 := by
    simp only [strSlice, List.length_take, List.length_drop]
    omega
  have hplens : plcHead.data.length = 1 ∧ plcFull.data.length = 2 := by decide
  rw [hslen, hplens.1, hplens.2]
  have hsub : usizeSub (ti - hi + 1) 2 = ti - hi - 1 :=
    usizeSub_of_le _ _ (by omega) (by norm_num; omega)
  rw [hsub]
  simp only [strSlice]
  refine congrArg String.mk ?_
  have e3 : ti - hi + 1 = 1 + (ti - hi) := by omega
  rw [e3, ← List.take_drop, List.take_take, List.drop_drop]
  have e4 : min (ti - hi - 1) (ti - hi) = ti - hi - 1 := by omega
  rw [e4]

/-- In the region where both marker byte indices fit in `i8` (at most 127),
the scan of a token whose head strictly precedes its tail and which does
not contain the adjacent pair reduces to the `i8` parse of the characters
strictly between the two markers. -/
theorem scanItem_inrange (item : String) (hi ti : Nat)
    (hc : strContains item plcFull = false)
    (hh : strFind item plcHead = some hi)
    (ht : strFind item plcTail = some ti)
    (hlt : hi < ti) (hle : ti ≤ 127) :
    scanItem item =
      match parseI8 (strSlice item (hi + 1) (ti - hi - 1)) with
      | some v => .ok (v, strSlice item hi (ti - hi + 1))
      | none => .error ("panic: parse script no. in placeholder of '" ++ item ++ "'") := by
  unfold scanItem
  rw [if_neg (by simp [hc])]
  rw [scanIdx_of_find _ _ _ hh (by omega), scanIdx_of_find _ _ _ ht hle]
  rw [if_pos ⟨by omega, by omega, by exact_mod_cast hlt⟩]
  rw [scanInterior_inrange item hi ti hh ht hlt hle]
  rw [scanSlice_inrange item hi ti hh ht hlt hle]

/-- A token containing the adjacent head-tail pair always scans to the
self-reference. -/
theorem scanItem_adjacent (item : String) (hc : strContains item plcFull = true) :
    scanItem item = .ok (0, plcFull) := by
  unfold scanItem
  rw [if_pos (by simp [hc])]

theorem plcsGet_isOk_false_of_mem (items : List String) (item : String)
    (hmem : item ∈ items) (herr : (scanItem item).isOk = false) :
    (plcsGet items).isOk = false := by
  induction items with
  | nil => cases hmem
  | cons x xs ih =>
    unfold plcsGet
    cases hx : scanItem x with
    | error e => simp [Except.isOk, Except.toBool]
    | ok p =>
      rcases List.mem_cons.mp hmem with rfl | hmem2
      · rw [hx] at herr
        simp [Except.isOk, Except.toBool] at herr
      · have hxs := ih hmem2
        cases hrest : plcsGet xs with
        | error e => simp [Except.isOk, Except.toBool]
        | ok ps =>
          rw [hrest] at hxs
          simp [Except.isOk, Except.toBool] at hxs

/-- A panic during the placeholder scan aborts `OutputFile::new`. -/
theorem new_isOk_false_of_scan (data : List String) (code : String) (n : Nat)
    (cfg : Config) (h2 : 2 ≤ data.length) (hstop : data.getD 1 "" ≠ sigStop)
    (hscan : (plcsGet (data.drop 1)).isOk = false) :
    (OutputFile.new data code n cfg).isOk = false := by
  unfold OutputFile.new
  rw [if_neg (by omega), if_neg hstop]
  cases hg : plcsGet (data.drop 1) with
  | error e => simp [Except.isOk, Except.toBool]
  | ok ps =>
    rw [hg] at hscan
    simp [Except.isOk, Except.toBool] at hscan

/-- An entry inserted for a key is found by the modelled `HashMap::get`. -/
theorem ctxLookup_cons_self (acc : List (Nat × String)) (k : Nat) (v : String) :
    ctxLookup ((k, v) :: acc) k = some v := by
  simp [ctxLookup, List.lookup]

theorem ctxLookup_cons_isSome (acc : List (Nat × String)) (k k2 : Nat) (v : String)
    (h : (ctxLookup acc k2).isSome = true) :
    (ctxLookup ((k, v) :: acc) k2).isSome = true := by
  simp only [ctxLookup, List.lookup]
  split
  · simp
  · exact h

/-- Every `Output::File` in the output list has its number present in the
context map built by `context_get`. -/
theorem contextGet_mem_isSome (outputs : List Output) (f : OutputFile)
    (h : Output.File f ∈ outputs) :
    (ctxLookup (contextGet outputs) f.n).isSome = true := by
  have aux : ∀ (os : List Output) (acc : List (Nat × String)),
      Output.File f ∈ os ∨ (ctxLookup acc f.n).isSome = true →
      (ctxLookup (os.foldl (fun acc o =>
        match o with
        | .File g => (g.n, g.path.get) :: acc
        | _ => acc) acc) f.n).isSome = true := by
    intro os
    induction os with
    | nil =>
      intro acc h2
      rcases h2 with h2 | h2
      · cases h2
      · simpa using h2
    | cons o os2 ih =>
      intro acc h2
      rw [List.foldl_cons]
      rcases h2 with h2 | h2
      · rcases List.mem_cons.mp h2 with rfl | hmem
        · refine ih _ (Or.inr ?_)
          rw [ctxLookup_cons_self]
          rfl
        · exact ih _ (Or.inl hmem)
      · refine ih _ (Or.inr ?_)
        cases o with
        | Text t => exact h2
        | File g => exact ctxLookup_cons_isSome _ _ _ _ h2
  exact aux outputs [] (Or.inl h)

/-- The substitution loop succeeds when every referenced number is in the
context. -/
theorem plcsSubst_ok_of_all (context : List (Nat × String)) (n : Nat)
    (plcs : List (Int × String)) (cmd : String)
    (h : ∀ plc ∈ plcs, (ctxLookup context (plcTarget n plc)).isSome = true) :
    (plcsSubst context n cmd plcs).isOk = true := by
  induction plcs generalizing cmd with
  | nil => simp [plcsSubst, Except.isOk, Except.toBool]
  | cons plc rest ih =>
    unfold plcsSubst
    have hp := h plc (List.mem_cons_self _ _)
    cases hl : ctxLookup context (plcTarget n plc) with
    | none => rw [hl] at hp; simp at hp
    | some path =>
      exact ih _ (fun q hq => h q (List.mem_cons_of_mem _ hq))

/-- The substitution loop panics when some referenced number is missing
from the context. -/
theorem plcsSubst_isOk_false_of_missing (context : List (Nat × String)) (n : Nat)
    (plcs : List (Int × String)) (cmd : String) (plc : Int × String)
    (hmem : plc ∈ plcs) (hmiss : ctxLookup context (plcTarget n plc) = none) :
    (plcsSubst context n cmd plcs).isOk = false := by
  induction plcs generalizing cmd with
  | nil => cases hmem
  | cons q rest ih =>
    unfold plcsSubst
    cases hl : ctxLookup context (plcTarget n q) with
    | none => simp [Except.isOk, Except.toBool]
    | some path =>
      rcases List.mem_cons.mp hmem with rfl | hmem2
      · rw [hl] at hmiss; cases hmiss
      · exact ih (rustReplace cmd q.2 path) hmem2

/-- `exec` on a file whose init is the `Code` variant is the code arm. -/
theorem exec_eq_execCode (f : OutputFile) (c : OutputFileInitCode)
    (context : List (Nat × String)) (h : f.init = .Code c) :
    f.exec context = execCode c f.n context := by
  unfold OutputFile.exec
  rw [h]

/-! ## Spec-side comparison definitions -/

/-- Follows the spec's words, for comparison with the code's stem fallback:
"the source document's own filename stem (the source path minus its
extension)" — everything before the last `'.'`, or the whole path when it
has no `'.'`. -/
def specSourceFileStem (p : String) : String :=
  let segs := strSplitOn p "."
  if segs.length ≤ 1 then p else String.intercalate "." segs.dropLast

/-- Follows the spec's words, for comparison with the code's `lineTokens`:
"the whitespace-split of the post-tail-marker text with empty entries
discarded". -/
def wsTokens (line : String) : List String :=
  ((List.splitOnP Char.isWhitespace (lineSections line).2.data).map String.mk).filter
    (fun t => t.data.isEmpty = false)

/-! ## Claim theorems -/

/-- C2 (counterexample): the claim's stem fallback is wrong on the code.
For source path `"a.b.c"` the code takes the text before the FIRST dot
(`"a"`), not the path minus its extension (`"a.b"`); and for the bare
directory-placeholder token `">"`, the filename part is resolved AFTER
substitution, so `ext` is the directory name, not `">"`. -/
theorem spec_c2_counterexample :
    pathResolve "ext" ⟨some "a.b.c", none, false, none⟩ = ⟨"scripts", "a", "ext"⟩ ∧
    specSourceFileStem "a.b.c" = "a.b" ∧
    ("a" : String) ≠ "a.b" ∧
    pathResolve ">" defaultConfig = ⟨"scripts", "src", "scripts"⟩ ∧
    strSplitOn ">" "." = [">"] ∧
    ("scripts" : String) ≠ ">" := by
  refine ⟨by decide, by decide, by decide, by decide, by decide, by decide⟩

/-- C2 (amended): for every path token, after the directory-placeholder
substitution the last `/`-segment is the filename part; split on `'.'`,
two or more dot-segments give `stem` = all but the last joined by `'.'`
and `ext` = the last segment; exactly one dot-segment gives `stem` = the
part of the source path before its FIRST `'.'` and `ext` = that single
segment; and `render()` always equals `dir ++ "/" ++ stem ++ "." ++ ext`. -/
theorem spec_c2_amended (token : String) (cfg : Config) :
    (2 ≤ (fileSegs token cfg).length →
      (pathResolve token cfg).stem =
        String.intercalate "." (fileSegs token cfg).dropLast ∧
      (pathResolve token cfg).ext = (fileSegs token cfg).getLastD "") ∧
    ((fileSegs token cfg).length = 1 →
      (pathResolve token cfg).stem = (strSplitOn cfg.pathSrcGet ".").getD 0 "" ∧
      (pathResolve token cfg).ext = filePart token cfg) ∧
    (pathResolve token cfg).get =
      (pathResolve token cfg).dir ++ "/" ++ (pathResolve token cfg).stem ++ "." ++
        (pathResolve token cfg).ext := by
  refine ⟨?_, ?_, rfl⟩
  · intro h2
    constructor
    · simp only [pathResolve]
      rw [if_pos (by omega)]
      rw [List.dropLast_eq_take]
    · rfl
  · intro h1
    constructor
    · simp only [pathResolve]
      rw [if_neg (by omega)]
    · obtain ⟨a, ha⟩ := List.length_eq_one.mp h1
      have hfp : a = filePart token cfg := strSplitOn_singleton _ _ _ ha
      simp only [pathResolve, fileSegs] at ha ⊢
      rw [ha]
      simpa using hfp

/-- C2 (witness). -/
theorem spec_c2_amended_witness :
    (pathResolve "script.ext" defaultConfig).stem =
      String.intercalate "." (fileSegs "script.ext" defaultConfig).dropLast ∧
    (pathResolve "script.ext" defaultConfig).ext =
      (fileSegs "script.ext" defaultConfig).getLastD "" :=
  (spec_c2_amended "script.ext" defaultConfig).1 (by decide)

/-- C7 (counterexample): tokenization splits only on the space character,
not on all whitespace — a token containing an interior tab is kept whole
by the code, where the claimed whitespace-split would cut it. -/
theorem spec_c7_counterexample :
    lineTokens "ext\tprog" = ["ext\tprog"] ∧
    wsTokens "ext\tprog" = ["ext", "prog"] ∧
    (["ext\tprog"] : List String) ≠ ["ext", "prog"] := by
  refine ⟨by decide, by decide, by decide⟩

/-- C7 (amended): for every directive line the token list is the split of
the trimmed post-tail-marker text on the space character with empty
entries discarded (other whitespace characters remain inside tokens), and
tokenizing `" ext program --flag value\n"` yields exactly
`["ext","program","--flag","value"]`, leading and trailing whitespace
notwithstanding. -/
theorem spec_c7_amended :
    (∀ line : String, lineTokens line =
      (strSplitOn (rustTrim (lineSections line).2) " ").filter
        (fun item => item.data.isEmpty = false)) ∧
    lineTokens " ext program --flag value\n" = ["ext", "program", "--flag", "value"] ∧
    lineTokens "\t  ext program --flag value \t\n" = ["ext", "program", "--flag", "value"] ∧
    lineTokens "ext program --flag value" = ["ext", "program", "--flag", "value"] := by
  refine ⟨fun line => rfl, by decide, by decide, by decide⟩

/-- C8 (confirmed): the directory-placeholder in the first `/`-segment is
replaced by the resolved directory name (the `dest` override when set,
else the default), and `dir` is the rejoin of the non-filename segments
when any remain, else the resolved directory name; in particular
`">/script.ext"` under the defaults yields `dir = "scripts"`. -/
theorem spec_c8 :
    (∀ (token : String) (cfg : Config),
      (pathResolve token cfg).dir =
        if ((partsSub token cfg).dropLast).isEmpty then cfg.pathDirGet
        else String.intercalate "/" ((partsSub token cfg).dropLast)) ∧
    (∀ (token : String) (cfg : Config) (p : String) (rest : List String),
      strSplitOn token "/" = p :: rest → p = plcPathDir →
      partsSub token cfg = cfg.pathDirGet :: rest) ∧
    (∀ cfg : Config, cfg.pathDirGet = (cfg.dest).getD pathDirDefault) ∧
    (pathResolve ">/script.ext" defaultConfig).dir = "scripts" := by
  refine ⟨fun token cfg => rfl, ?_, fun cfg => rfl, by decide⟩
  intro token cfg p rest hsplit hp
  unfold partsSub
  rw [hsplit]
  simp [hp]

/-- C8 (witness). -/
theorem spec_c8_witness :
    partsSub ">/script.ext" defaultConfig = defaultConfig.pathDirGet :: ["script.ext"] :=
  spec_c8.2.1 ">/script.ext" defaultConfig ">" ["script.ext"] (by decide) rfl

/-- C4 (confirmed): the run-spec decision table is evaluated in order — a
single-token list always yields the no-values notice with no placeholder
scan (the result is `ok` whatever the tokens), and a second token equal to
the stop signal always yields the stop notice, again with no scan, even
when later tokens hold placeholders (well-formed or panic-inducing). -/
theorem spec_c4 :
    (∀ (data : List String) (code : String) (n : Nat) (cfg : Config),
      data.length = 1 →
      OutputFile.new data code n cfg =
        .ok ⟨data, code, pathResolve (data.getD 0 "") cfg,
          .Text (.Stderr ("Not running file no. " ++ toString n ++ " (no values)")), n⟩) ∧
    (∀ (data : List String) (code : String) (n : Nat) (cfg : Config),
      2 ≤ data.length → data.getD 1 "" = sigStop →
      OutputFile.new data code n cfg =
        .ok ⟨data, code, pathResolve (data.getD 0 "") cfg,
          .Text (.Stderr ("Not running file no. " ++ toString n ++ " (" ++ sigStop ++
            " applied)")), n⟩) := by
  constructor
  · intro data code n cfg h1
    unfold OutputFile.new
    rw [if_pos h1]
  · intro data code n cfg h2 hstop
    unfold OutputFile.new
    rw [if_neg (by omega), if_pos hstop]

/-- C4 (witness): the second instance carries a panic-inducing placeholder
token after the stop signal, showing the scan is never reached. -/
theorem spec_c4_witness :
    OutputFile.new ["ext"] "b" 1 defaultConfig =
      .ok ⟨["ext"], "b", ⟨"scripts", "src", "ext"⟩,
        .Text (.Stderr "Not running file no. 1 (no values)"), 1⟩ ∧
    OutputFile.new ["ext", "!", ">bad<"] "b" 2 defaultConfig =
      .ok ⟨["ext", "!", ">bad<"], "b", ⟨"scripts", "src", "ext"⟩,
        .Text (.Stderr "Not running file no. 2 (! applied)"), 2⟩ := by
  constructor
  · exact (spec_c4.1 ["ext"] "b" 1 defaultConfig (by decide)).trans (by decide)
  · exact (spec_c4.2 ["ext", "!", ">bad<"] "b" 2 defaultConfig (by decide) (by decide)).trans
      (by decide)

/-- A 256-character token whose placeholder number is 254 digits long: the
tail marker sits at byte index 255, which the scan's `as i8` cast wraps to
the `-1` "not found" sentinel. -/
def tokOnes : String := String.mk ('>' :: (List.replicate 254 '1' ++ ['<']))

/-- C3 (counterexample): a post-path token carrying a head-digits-tail
occurrence of the marker whose tail index is 255 escapes detection — the
`i8` cast of the index collides with the sentinel — so the command is
synthesized as a direct invocation, not the claimed composite form. -/
theorem spec_c3_counterexample :
    strFind tokOnes plcHead = some 0 ∧
    strFind tokOnes plcTail = some 255 ∧
    (tokOnes.data.drop 1).dropLast.all Char.isDigit = true ∧
    OutputFile.new ["ext", "cmd1", tokOnes] "b" 1 defaultConfig =
      .ok ⟨["ext", "cmd1", tokOnes], "b", ⟨"scripts", "src", "ext"⟩,
        .Code ⟨"cmd1", [tokOnes, "scripts/src.ext"], []⟩, 1⟩ ∧
    ("cmd1" : String) ≠ cmdProg := by
  refine ⟨by decide, by decide, by decide, by decide, by decide⟩

/-- C3 (amended): when the placeholder scan of every post-path token
completes and records at least one reference, the command is the
composite form — shell defaults for prog and flag, the literal space-join
of the post-path tokens as template, the recorded references untouched;
each token containing the adjacent pair records the self-reference, and
each token whose markers sit at `i8`-range positions (head before tail)
records the number parsed from the digits between them; the spec's
seven-token example yields exactly one self-reference and the literal
joined template. -/
theorem spec_c3_amended :
    (∀ (data : List String) (code : String) (n : Nat) (cfg : Config)
      (plcs : List (Int × String)),
      2 ≤ data.length → data.getD 1 "" ≠ sigStop →
      plcsGet (data.drop 1) = .ok plcs → plcs ≠ [] →
      OutputFile.new data code n cfg =
        .ok ⟨data, code, pathResolve (data.getD 0 "") cfg,
          .Code ⟨cmdProg, [cmdFlag, String.intercalate " " (data.drop 1)], plcs⟩, n⟩) ∧
    (∀ item : String, strContains item plcFull = true → scanItem item = .ok (0, plcFull)) ∧
    (∀ (item : String) (hi ti : Nat) (d : Int),
      strContains item plcFull = false →
      strFind item plcHead = some hi → strFind item plcTail = some ti →
      hi < ti → ti ≤ 127 →
      parseI8 (strSlice item (hi + 1) (ti - hi - 1)) = some d →
      scanItem item = .ok (d, strSlice item hi (ti - hi + 1))) ∧
    OutputFile.new ["ext", "program_1", "--flag", "value", "><", "|", "program_2"]
        "//code" 1 defaultConfig =
      .ok ⟨["ext", "program_1", "--flag", "value", "><", "|", "program_2"], "//code",
        ⟨"scripts", "src", "ext"⟩,
        .Code ⟨"bash", ["-c", "program_1 --flag value >< | program_2"], [(0, "><")]⟩, 1⟩ := by
  refine ⟨?_, scanItem_adjacent, ?_, by decide⟩
  · intro data code n cfg plcs h2 hstop hplcs hne
    unfold OutputFile.new
    rw [if_neg (by omega), if_neg hstop, hplcs]
    cases plcs with
    | nil => exact absurd rfl hne
    | cons p ps => simp
  · intro item hi ti d hc hh ht hlt hle hp
    rw [scanItem_inrange item hi ti hc hh ht hlt hle, hp]

/-- C3 (witness). -/
theorem spec_c3_amended_witness :
    OutputFile.new ["ext", "prog", ">2<"] "b" 3 defaultConfig =
      .ok ⟨["ext", "prog", ">2<"], "b", ⟨"scripts", "src", "ext"⟩,
        .Code ⟨"bash", ["-c", "prog >2<"], [(2, ">2<")]⟩, 3⟩ :=
  (spec_c3_amended.1 ["ext", "prog", ">2<"] "b" 3 defaultConfig [(2, ">2<")]
    (by decide) (by decide) (by decide) (by decide)).trans (by decide)

/-- A 256-character token with non-numeric text between the markers; the
tail index 255 again wraps to the sentinel. -/
def tokWide : String := String.mk ('>' :: (List.replicate 254 'a' ++ ['<']))

/-- C9 (counterexample): a token in which head occurs before tail, without
the adjacent pair and with non-numeric text between the markers, yet the
run does NOT panic — the tail's byte index 255 wraps to `-1` under the
`i8` cast and the token is treated as carrying no placeholder at all. -/
theorem spec_c9_counterexample :
    strFind tokWide plcHead = some 0 ∧
    strFind tokWide plcTail = some 255 ∧
    strContains tokWide plcFull = false ∧
    parseI8 (strSlice tokWide 1 254) = none ∧
    scanItem tokWide = .ok (-1, "") ∧
    (OutputFile.new ["ext", "run", tokWide] "b" 1 defaultConfig).isOk = true := by
  refine ⟨by decide, by decide, by decide, by decide, by decide, by decide⟩

/-- C9 (amended): for every post-path token whose marker positions fit in
`i8` (at most 127), with the head strictly before the tail and without
the adjacent pair, a failed `i8` parse of the text between the markers —
any non-numeric text, or any number above 127 — panics, aborting
`OutputFile::new` (and hence the whole run) instead of producing a tagged
outcome. -/
theorem spec_c9_amended (item : String) (hi ti : Nat)
    (hc : strContains item plcFull = false)
    (hh : strFind item plcHead = some hi)
    (ht : strFind item plcTail = some ti)
    (hlt : hi < ti) (hle : ti ≤ 127)
    (hp : parseI8 (strSlice item (hi + 1) (ti - hi - 1)) = none) :
    (scanItem item).isOk = false ∧
    ∀ (data : List String) (code : String) (n : Nat) (cfg : Config),
      2 ≤ data.length → data.getD 1 "" ≠ sigStop → item ∈ data.drop 1 →
      (OutputFile.new data code n cfg).isOk = false := by
  have hscan : (scanItem item).isOk = false := by
    rw [scanItem_inrange item hi ti hc hh ht hlt hle, hp]
    rfl
  refine ⟨hscan, ?_⟩
  intro data code n cfg h2 hstop hmem
  exact new_isOk_false_of_scan data code n cfg h2 hstop
    (plcsGet_isOk_false_of_mem _ item hmem hscan)

/-- C9 (witness): both a non-numeric interior and an out-of-range number
panic. -/
theorem spec_c9_amended_witness :
    (scanItem ">abc<").isOk = false ∧
    (OutputFile.new ["ext", "run", ">abc<"] "b" 1 defaultConfig).isOk = false ∧
    (scanItem ">200<").isOk = false := by
  have h := spec_c9_amended ">abc<" 0 4 (by decide) (by decide) (by decide) (by decide)
    (by decide) (by decide)
  have h2 := spec_c9_amended ">200<" 0 4 (by decide) (by decide) (by decide) (by decide)
    (by decide) (by decide)
  exact ⟨h.1, h.2 ["ext", "run", ">abc<"] "b" 1 defaultConfig (by decide) (by decide)
    (by decide), h2.1⟩

/-- C5 (confirmed): every materialized output's number is a key of the
context built from the full output list; the application phase passes the
context of the COMPLETE output list to every single output; and during
execution a composite placeholder whose target number is absent from the
context is a fatal lookup error. -/
theorem spec_c5 :
    (∀ (outputs : List Output) (f : OutputFile), Output.File f ∈ outputs →
      (ctxLookup (contextGet outputs) f.n).isSome = true) ∧
    (∀ outputs : List Output,
      outputsApplyAll outputs = outputs.map (fun o => o.apply (contextGet outputs))) ∧
    (∀ (f : OutputFile) (ctx : List (Nat × String)) (c : OutputFileInitCode)
      (plc : Int × String),
      f.init = .Code c → plc ∈ c.plcs →
      ctxLookup ctx (plcTarget f.n plc) = none →
      (f.exec ctx).isOk = false) := by
  refine ⟨contextGet_mem_isSome, fun outputs => rfl, ?_⟩
  intro f ctx c plc hinit hmem hmiss
  have hne : c.plcs.isEmpty = false := by
    cases hp : c.plcs with
    | nil => rw [hp] at hmem; cases hmem
    | cons q qs => rfl
  have herr := plcsSubst_isOk_false_of_missing ctx f.n c.plcs
    (if c.plcs.length = 0 then "" else c.args.getD 1 "") plc hmem hmiss
  rw [exec_eq_execCode f c ctx hinit]
  unfold execCode
  rw [if_neg (by simp [hne])]
  cases hs : plcsSubst ctx f.n (if c.plcs.length = 0 then "" else c.args.getD 1 "") c.plcs with
  | ok cmd => rw [hs] at herr; simp [Except.isOk, Except.toBool] at herr
  | error e => rfl

/-- C5 (witness). -/
theorem spec_c5_witness :
    (ctxLookup (contextGet [Output.File ⟨["ext"], "b", ⟨"scripts", "src", "ext"⟩,
      .Text (.Stderr "x"), 1⟩]) 1).isSome = true ∧
    ((⟨["ext", "p", ">3<"], "b", ⟨"scripts", "src", "ext"⟩,
      .Code ⟨"bash", ["-c", "p >3<"], [(3, ">3<")]⟩, 1⟩ : OutputFile).exec []).isOk = false := by
  constructor
  · exact spec_c5.1 _ _ (List.mem_cons_self _ _)
  · exact spec_c5.2.2 _ [] ⟨"bash", ["-c", "p >3<"], [(3, ">3<")]⟩ (3, ">3<") rfl
      (List.mem_cons_self _ _) (by decide)

/-- C10 (confirmed): a fragment executing as a composite whose references
are all self-references can never hit the fatal missing-context lookup:
it is itself an `Output::File` of the output list the context was built
from, so its own number is a key — the `only` subset filter included,
since the filter is applied before the outputs (and hence the context)
are formed. -/
theorem spec_c10 :
    (∀ (outputs : List Output) (f : OutputFile) (c : OutputFileInitCode),
      Output.File f ∈ outputs → f.init = .Code c →
      (∀ plc ∈ c.plcs, plc.1 = 0) →
      (f.exec (contextGet outputs)).isOk = true) ∧
    (∀ (source : Source) (cfg : Config) (outs : List Output) (f : OutputFile)
      (c : OutputFileInitCode),
      outputsGet source cfg = .ok outs → Output.File f ∈ outs → f.init = .Code c →
      (∀ plc ∈ c.plcs, plc.1 = 0) →
      (f.exec (contextGet outs)).isOk = true) := by
  have main : ∀ (outputs : List Output) (f : OutputFile) (c : OutputFileInitCode),
      Output.File f ∈ outputs → f.init = .Code c →
      (∀ plc ∈ c.plcs, plc.1 = 0) →
      (f.exec (contextGet outputs)).isOk = true := by
    intro outputs f c hmem hinit hall
    have hself := contextGet_mem_isSome outputs f hmem
    rw [exec_eq_execCode f c (contextGet outputs) hinit]
    unfold execCode
    by_cases hemp : c.plcs.isEmpty = true
    · rw [if_pos hemp]; rfl
    · rw [if_neg hemp]
      have hok := plcsSubst_ok_of_all (contextGet outputs) f.n c.plcs
        (if c.plcs.length = 0 then "" else c.args.getD 1 "")
        (fun plc hp => by unfold plcTarget; rw [if_pos (hall plc hp)]; exact hself)
      cases hs : plcsSubst (contextGet outputs) f.n
          (if c.plcs.length = 0 then "" else c.args.getD 1 "") c.plcs with
      | error e => rw [hs] at hok; simp [Except.isOk, Except.toBool] at hok
      | ok cmd => rfl
  exact ⟨main, fun source cfg outs f c _ hmem hinit hall => main outs f c hmem hinit hall⟩

/-- C10 (witness): a two-script document under the subset filter `only
[2]`; script 2 carries a self placeholder and executes cleanly against
the context built from the filtered outputs. -/
theorem spec_c10_witness :
    outputsGet (sourceGet "p\n### a.ext run1\nb1\n### b.ext cmd ><\nb2\n")
      ⟨none, none, false, some [2]⟩ =
      .ok [Output.File ⟨["b.ext", "cmd", "><"], "b2", ⟨"scripts", "b", "ext"⟩,
        .Code ⟨"bash", ["-c", "cmd ><"], [(0, "><")]⟩, 2⟩] ∧
    ((⟨["b.ext", "cmd", "><"], "b2", ⟨"scripts", "b", "ext"⟩,
      .Code ⟨"bash", ["-c", "cmd ><"], [(0, "><")]⟩, 2⟩ : OutputFile).exec
      (contextGet [Output.File ⟨["b.ext", "cmd", "><"], "b2", ⟨"scripts", "b", "ext"⟩,
        .Code ⟨"bash", ["-c", "cmd ><"], [(0, "><")]⟩, 2⟩])).isOk = true := by
  constructor
  · decide
  · exact spec_c10.1 _ _ ⟨"bash", ["-c", "cmd ><"], [(0, "><")]⟩ (List.mem_cons_self _ _)
      rfl (by decide)

/-- C6 (confirmed): with list mode active, every fragment — whatever its
tag data, malformed path tokens included — parses to exactly the stdout
line `"{n}:{label:} {data}"` (label followed by `':'` when nonempty),
path and command resolution are never entered, and applying the output
produces a single print effect: no directory creation, no file write, no
process spawn. -/
theorem spec_c6 (script : Script) (cfg : Config) (ctx : List (Nat × String))
    (h : cfg.list = true) :
    inputsParse script cfg = .ok (.Text (.Stdout (toString script.n ++ ":" ++
      (if (lineLabel script.line).data.isEmpty then ""
       else lineLabel script.line ++ ":") ++ " " ++ lineData script.line))) ∧
    Output.apply (.Text (.Stdout (listLine script))) ctx =
      .ok [.print false (listLine script)] := by
  constructor
  · unfold inputsParse
    rw [if_pos h]
    exact rfl
  · rfl

/-- C6 (witness): a fragment whose tag data is a malformed path token
still produces only the informational line. -/
theorem spec_c6_witness :
    inputsParse ⟨3, " lbl # bad//path >< x", "b"⟩ ⟨none, none, true, none⟩ =
      .ok (.Text (.Stdout "3: lbl : bad//path >< x")) ∧
    Output.apply (.Text (.Stdout (listLine ⟨3, " lbl # bad//path >< x", "b"⟩))) [] =
      .ok [.print false (listLine ⟨3, " lbl # bad//path >< x", "b"⟩)] := by
  have h := spec_c6 ⟨3, " lbl # bad//path >< x", "b"⟩ ⟨none, none, true, none⟩ [] rfl
  exact ⟨h.1.trans (by decide), h.2⟩

/-- C1 (counterexample): the tokenizer splits the directive data on
spaces with no quote handling, so `bash -c 'echo hi'` becomes the four
argument tokens `["-c", "'echo", "hi'"]` plus the appended path — not the
claimed `["-c", "echo hi", path]`. -/
theorem spec_c1_counterexample :
    outputsGet (sourceGet "pre\n### ext bash -c 'echo hi'\nbody\n") defaultConfig =
      .ok [Output.File ⟨["ext", "bash", "-c", "'echo", "hi'"], "body",
        ⟨"scripts", "src", "ext"⟩,
        .Code ⟨"bash", ["-c", "'echo", "hi'", "scripts/src.ext"], []⟩, 1⟩] ∧
    (["-c", "'echo", "hi'", "scripts/src.ext"] : List String) ≠
      ["-c", "echo hi", "scripts/src.ext"] := by
  refine ⟨by decide, by decide⟩

/-- C1 (amended): the scenario document yields exactly one fragment with
output path dir `"scripts"`, stem `"src"` (the default source document's
stem), ext `"ext"`, a direct invocation of `"bash"` whose args are the
whitespace-split tokens after the program name — the quoted phrase split
into the two literal tokens `"'echo"` and `"hi'"` — with the fragment's
own resolved path appended last, and the file written with content
`"body"` before the spawn. -/
theorem spec_c1_amended :
    sourceGet "pre\n### ext bash -c 'echo hi'\nbody\n" =
      ⟨"pre\n", [⟨1, " ext bash -c 'echo hi'", "body"⟩]⟩ ∧
    outputsGet (sourceGet "pre\n### ext bash -c 'echo hi'\nbody\n") defaultConfig =
      .ok [Output.File ⟨["ext", "bash", "-c", "'echo", "hi'"], "body",
        ⟨"scripts", "src", "ext"⟩,
        .Code ⟨"bash", ["-c", "'echo", "hi'", "scripts/src.ext"], []⟩, 1⟩] ∧
    outputsApplyAll [Output.File ⟨["ext", "bash", "-c", "'echo", "hi'"], "body",
        ⟨"scripts", "src", "ext"⟩,
        .Code ⟨"bash", ["-c", "'echo", "hi'", "scripts/src.ext"], []⟩, 1⟩] =
      [.ok [.mkdirAll "scripts", .writeFile "scripts/src.ext" "body",
        .spawnProc "bash" ["-c", "'echo", "hi'", "scripts/src.ext"]]] := by
  refine ⟨by decide, by decide, by decide⟩
